import Mathlib

/-!
Verification of the UnityPdbDownloader core (src/main.rs) against its
natural-language specification.

Modelling conventions (shallow embedding):
* Rust strings and paths are modelled as `List Char`; raw byte buffers as
  `List Nat` with every byte `< 256`.
* Machine integers are `Nat` (the formatted values `u32`/`u16` are built from
  bytes, hence always in range; no wrap-around can occur in this code).
* Rust panics (`expect`/`unwrap`) are modelled by an explicit `Outcome.panicked`
  constructor carrying the panic message; fallible collaborator steps return
  `Except`.
* Filesystem state is an association list from paths to byte contents.
-/

namespace UnityPdb

/-! ### Hexadecimal formatting, as produced by Rust format specifiers
`\x7b:08X\x7d`, `\x7b:04X\x7d`, `\x7b:02X\x7d` (uppercase, zero-padded).
For values `n < 16 ^ w` (which is the case at every call site) the Rust
formatter emits exactly `w` uppercase hex digits, most significant first. -/

/-- The uppercase hexadecimal digit character for `n < 16`. -/
def hexDigitChar (n : Nat) : Char :=
  if n < 10 then Char.ofNat (48 + n) else Char.ofNat (55 + n)

/-- The `w` base-16 digits of `n`, least significant first. -/
def hexDigitsLE : Nat → Nat → List Nat
  | 0, _ => []
  | w + 1, n => (n % 16) :: hexDigitsLE w (n / 16)

/-- Fixed-width uppercase hex rendering of `n` with `w` digits, most
significant first: the output of Rust `\x7b:0wX\x7d` for `n < 16 ^ w`. -/
def hexPad (w n : Nat) : List Char :=
  ((hexDigitsLE w n).reverse).map hexDigitChar

/-- Is `c` an uppercase hexadecimal digit (`0`-`9` or `A`-`F`)? -/
def isUpperHex (c : Char) : Bool :=
  (48 ≤ c.toNat && c.toNat ≤ 57) || (65 ≤ c.toNat && c.toNat ≤ 70)

/-- Numeric value of a hexadecimal digit character (uppercase letters). -/
def hexVal (c : Char) : Nat :=
  if 48 ≤ c.toNat && c.toNat ≤ 57 then c.toNat - 48
  else if 65 ≤ c.toNat && c.toNat ≤ 70 then c.toNat - 55
  else 0

/-- Big-endian interpretation of a string of hex digits. -/
def fromHexBE (s : List Char) : Nat :=
  s.foldl (fun a c => 16 * a + hexVal c) 0

/-- `u16::from_le_bytes([b0, b1])`. -/
def u16le (b0 b1 : Nat) : Nat := b0 + 256 * b1

/-- `u32::from_le_bytes([b0, b1, b2, b3])`. -/
def u32le (b0 b1 b2 b3 : Nat) : Nat :=
  b0 + 256 * b1 + 65536 * b2 + 16777216 * b3

/-- Indexing `guid_buf[i]` into the 16-byte signature array
(goblin hands the code a fixed `[u8; 16]`, so the index is always in
bounds; out-of-range access defaults to `0` in the model). -/
def byteAt (l : List Nat) (i : Nat) : Nat := l.getD i 0

/-- The `dll_guid` string built by `parse_dll` (src/main.rs lines 46-53):
`format!` of the first four bytes as a little-endian `u32` in 8 uppercase hex
digits, bytes 4-5 and 6-7 as little-endian `u16`s in 4 digits each, then
bytes 8-15 verbatim, 2 digits each, concatenated with no separators. -/
def dllGuid (g : List Nat) : List Char :=
  hexPad 8 (u32le (byteAt g 0) (byteAt g 1) (byteAt g 2) (byteAt g 3)) ++
  hexPad 4 (u16le (byteAt g 4) (byteAt g 5)) ++
  hexPad 4 (u16le (byteAt g 6) (byteAt g 7)) ++
  hexPad 2 (byteAt g 8) ++ hexPad 2 (byteAt g 9) ++
  hexPad 2 (byteAt g 10) ++ hexPad 2 (byteAt g 11) ++
  hexPad 2 (byteAt g 12) ++ hexPad 2 (byteAt g 13) ++
  hexPad 2 (byteAt g 14) ++ hexPad 2 (byteAt g 15)

/-! ### Decoding, following the specification's grouping rule
(§3 of the spec): the first 8 hex digits are a little-endian `u32` group, the
next two groups of 4 digits are little-endian `u16`s, and the last 16 digits
are 8 raw bytes in original order. -/

/-- Little-endian byte decomposition of a `u16` value. -/
def leBytes2 (v : Nat) : List Nat := [v % 256, v / 256 % 256]

/-- Little-endian byte decomposition of a `u32` value. -/
def leBytes4 (v : Nat) : List Nat :=
  [v % 256, v / 256 % 256, v / 65536 % 256, v / 16777216 % 256]

/-- Reads consecutive pairs of hex digits as bytes, in original order. -/
def pairsToBytes : List Char → List Nat
  | c1 :: c2 :: rest => (16 * hexVal c1 + hexVal c2) :: pairsToBytes rest
  | _ => []

/-- Modelled from the spec: decoding a formatted `record_signature` back into
the three grouped fields (4-byte little-endian group, two 2-byte
little-endian groups, 8 raw bytes), byte for byte.  Rejects any string that
is not exactly 32 uppercase hex characters. -/
def decodeSignature (s : List Char) : Option (List Nat) :=
  if s.length = 32 ∧ ∀ c ∈ s, isUpperHex c = true then
    some (leBytes4 (fromHexBE (s.take 8)) ++
          leBytes2 (fromHexBE ((s.drop 8).take 4)) ++
          leBytes2 (fromHexBE ((s.drop 12).take 4)) ++
          pairsToBytes (s.drop 16))
  else none

/-! ### UTF-8 validation and decoding, modelling `std::str::from_utf8`
Rust's `from_utf8` accepts exactly the well-formed UTF-8 byte sequences
(shortest form, no surrogates, code points at most `0x10FFFF`) and otherwise
returns an error; the model returns the decoded characters or `none`. -/

/-- Is `b` a UTF-8 continuation byte (`0x80`-`0xBF`)? -/
def isCont (b : Nat) : Bool := 128 ≤ b && b ≤ 191

/-- Strict UTF-8 decoding of a byte sequence: `some` of the decoded
characters when the input is valid UTF-8, `none` otherwise, exactly as
`std::str::from_utf8` validates. -/
def utf8Decode : List Nat → Option (List Char)
  | [] => some []
  | b :: rest =>
    if b < 128 then
      (utf8Decode rest).map (Char.ofNat b :: ·)
    else if 194 ≤ b && b ≤ 223 then
      match rest with
      | b1 :: r =>
        if isCont b1 then
          (utf8Decode r).map (Char.ofNat ((b - 192) * 64 + (b1 - 128)) :: ·)
        else none
      | [] => none
    else if 224 ≤ b && b ≤ 239 then
      match rest with
      | b1 :: b2 :: r =>
        let lo1 : Nat := if b = 224 then 160 else 128
        let hi1 : Nat := if b = 237 then 159 else 191
        if (lo1 ≤ b1 && b1 ≤ hi1) && isCont b2 then
          (utf8Decode r).map
            (Char.ofNat ((b - 224) * 4096 + (b1 - 128) * 64 + (b2 - 128)) :: ·)
        else none
      | _ => none
    else if 240 ≤ b && b ≤ 244 then
      match rest with
      | b1 :: b2 :: b3 :: r =>
        let lo1 : Nat := if b = 240 then 144 else 128
        let hi1 : Nat := if b = 244 then 143 else 191
        if (lo1 ≤ b1 && b1 ≤ hi1) && (isCont b2 && isCont b3) then
          (utf8Decode r).map
            (Char.ofNat ((b - 240) * 262144 + (b1 - 128) * 4096 +
                         (b2 - 128) * 64 + (b3 - 128)) :: ·)
        else none
      | _ => none
    else none

/-! ### Trailing-character trimming, modelling `str::trim_end_matches('\0')`
and `str::trim_end` -/

/-- `str::trim_end_matches('\0')`: removes every trailing NUL character
(Rust repeatedly removes suffixes matching the pattern). -/
def trimEndNul (s : List Char) : List Char :=
  (s.reverse.dropWhile (fun c => c = '\x00')).reverse

/-- The `char::is_whitespace` predicate: the Unicode `White_Space` property. -/
def isRustWhitespace (c : Char) : Bool :=
  (9 ≤ c.toNat && c.toNat ≤ 13) || c.toNat = 32 || c.toNat = 133 ||
  c.toNat = 160 || c.toNat = 5760 || (8192 ≤ c.toNat && c.toNat ≤ 8202) ||
  c.toNat = 8232 || c.toNat = 8233 || c.toNat = 8239 || c.toNat = 8287 ||
  c.toNat = 12288

/-- `str::trim_end`: removes all trailing whitespace characters. -/
def rustTrimEnd (s : List Char) : List Char :=
  (s.reverse.dropWhile isRustWhitespace).reverse

/-- The processed debug-record path string of `parse_dll`
(src/main.rs lines 31-34): UTF-8 decoding with `""` substituted on error
(`unwrap_or("")`), then `trim_end_matches('\0')`, then `trim_end()`. -/
def pdbPathRaw (bytes : List Nat) : List Char :=
  rustTrimEnd (trimEndNul ((utf8Decode bytes).getD []))

/-! ### The filesystem-path model: `std::path::Path` on Unix-style paths
Paths are strings; components are the non-empty pieces between `/`
separators, with `.` pieces skipped (they are not components except at the
start of a relative path, a case irrelevant to the last component). -/

/-- Splits a string at every `/`, keeping empty pieces. -/
def splitSl : List Char → List (List Char)
  | [] => [[]]
  | c :: t =>
    match splitSl t with
    | [] => [[c]]
    | h :: r => if c = '/' then [] :: h :: r else (c :: h) :: r

/-- The normal-ish pieces of a path: empty pieces (from repeated or edge
separators) and bare `.` pieces are dropped, as in `Path::components`. -/
def pathPieces (s : List Char) : List (List Char) :=
  (splitSl s).filter (fun p => !p.isEmpty && p ≠ ['.'])

/-- `Path::file_name`: the final component, unless it is `..` (or the path
has no components at all). -/
def fileName (s : List Char) : Option (List Char) :=
  match (pathPieces s).getLast? with
  | none => none
  | some p => if p = ['.', '.'] then none else some p

/-- The characters of a file name strictly before its final `.` (used for
the extension split). -/
def dropAfterLastDot (n : List Char) : List Char :=
  ((n.reverse.dropWhile (fun c => c ≠ '.')).tail).reverse

/-- The stem of a file name, per the `Path::file_stem` documentation: the
whole name when it contains no `.` past its first character (which covers
both a name with no `.` and a hidden-file name like `.config`), otherwise
the portion before the final `.`. -/
def stemOfName (n : List Char) : List Char :=
  match n with
  | [] => []
  | c :: t => if t.contains '.' then dropAfterLastDot (c :: t) else c :: t

/-- `Path::file_stem`: the stem of the file name, when there is one. -/
def fileStem (s : List Char) : Option (List Char) :=
  (fileName s).map stemOfName

/-- `Path::parent`: the path with its final component removed; `none` for an
empty path or the bare root. -/
def rustParent (s : List Char) : Option (List Char) :=
  if s.all (fun c => c = '/') then none
  else
    let r1 := s.reverse.dropWhile (fun c => c = '/')
    let r3 := (r1.dropWhile (fun c => c ≠ '/')).dropWhile (fun c => c = '/')
    if r3.isEmpty then
      if s.head? = some '/' then some ['/'] else some []
    else some r3.reverse

/-- `Path::join` with a relative (or absolute) second argument, as
`PathBuf::push` behaves: an absolute `n` replaces `p`; otherwise `n` is
appended, inserting a `/` separator unless one is already present. -/
def rustJoin (p n : List Char) : List Char :=
  if n.head? = some '/' then n
  else if p.isEmpty then n
  else if p.getLast? = some '/' then p ++ n
  else p ++ '/' :: n

/-! ### The data model and `parse_dll` (src/main.rs lines 14-64)
The PE container itself is parsed by the external `goblin` crate; the model
takes the outcome of `PE::parse` as input (an `Except` mirroring goblin's
`Result`) and embeds everything `parse_dll` does with it.  Only the fields
the program reads are modelled. -/

/-- The `CodeviewPDB70DebugInfo` record goblin hands back: a 16-byte
signature, an age, and the raw bytes of the trailing file-name string. -/
structure CodeviewPDB70 where
  signature : List Nat
  age : Nat
  filename : List Nat
deriving DecidableEq, Repr

/-- The `DebugData` field of a parsed PE, narrowed to the field the program
reads. -/
structure DebugData where
  codeview_pdb70_debug_info : Option CodeviewPDB70
deriving DecidableEq, Repr

/-- A parsed PE, narrowed to the field the program reads. -/
structure PE where
  debug_data : Option DebugData
deriving DecidableEq, Repr

/-- The result record of `parse_dll` (src/main.rs lines 14-21). -/
structure DllInfo where
  dll_path : List Char
  dll_guid : List Char
  pdb_name : List Char
  pdb_path : List Char
  cab_path : List Char
deriving DecidableEq, Repr

/-- The result of running a piece of Rust code that can panic: either a
value or an abort carrying the panic message (`expect` / `unwrap`). -/
inductive Outcome (α : Type) where
  | ok : α → Outcome α
  | panicked : List Char → Outcome α
deriving DecidableEq, Repr

/-- The body of `parse_dll` after `PE::parse` (src/main.rs lines 27-64):
decode the trailing file-name bytes with `""` substituted on invalid UTF-8,
strip trailing NULs and whitespace, take the file name and stem, format the
signature, and join the module's parent directory with the derived names. -/
def parseFromInfo (dll_path : List Char) (di : CodeviewPDB70) : Outcome DllInfo :=
  let raw := pdbPathRaw di.filename
  match fileName raw with
  | none => .panicked ("parse pdb name failed").toList
  | some pdb_name =>
    match fileStem raw with
    | none => .panicked ("parse pdb name failed").toList
    | some pdb_name_without_ext =>
      let dll_guid := dllGuid di.signature
      match rustParent dll_path with
      | none => .panicked ("called Option unwrap on a None value").toList
      | some parent =>
        let cab_path := rustJoin parent (pdb_name_without_ext ++ (".cab").toList)
        let pdb_path := rustJoin parent pdb_name
        .ok { dll_path := dll_path, dll_guid := dll_guid,
              pdb_name := pdb_name_without_ext,
              pdb_path := pdb_path, cab_path := cab_path }

/-- `parse_dll` (src/main.rs lines 23-64), starting from the outcome of
`PE::parse` over the module's bytes (file I/O errors are out of scope; the
three `expect` calls on the parse result and the debug-data fields panic
with the messages shown). -/
def parse_dll (dll_path : List Char) (peResult : Except (List Char) PE) :
    Outcome DllInfo :=
  match peResult with
  | .error _ => .panicked ("dll parse failed").toList
  | .ok pe =>
    match pe.debug_data with
    | none => .panicked ("dll no debug data").toList
    | some dd =>
      match dd.codeview_pdb70_debug_info with
      | none => .panicked ("dll no debug info").toList
      | some di => parseFromInfo dll_path di

/-! ### The symbol-server URL and lookup key (src/main.rs lines 66-68) -/

/-- The fixed symbol-server root the URL is built on. -/
def serverRoot : List Char := ("http://symbolserver.unity3d.com/").toList

/-- The `cab_url` built by `download_cab` (src/main.rs lines 66-68). -/
def cabUrl (info : DllInfo) : List Char :=
  serverRoot ++ info.pdb_name ++ (".pdb/").toList ++ info.dll_guid ++
  ("1/").toList ++ info.pdb_name ++ (".pd_").toList

/-- Modelled from the spec: the lookup key grammar of §6,
`<module_base_name>.pdb/<record_signature>1/<module_base_name>.pd_`. -/
def specLookupKey (base sig : List Char) : List Char :=
  base ++ (".pdb/").toList ++ sig ++ ("1/").toList ++ base ++ (".pd_").toList

/-! ### The filesystem and the fetch step (src/main.rs lines 66-121) -/

/-- Filesystem state: an association list from paths to byte contents; the
first binding for a path is its current content. -/
def Fs : Type := List (List Char × List Nat)
deriving DecidableEq, Repr

/-- Creating/truncating a file and writing `d` to it. -/
def fsSet (fs : Fs) (p : List Char) (d : List Nat) : Fs := (p, d) :: fs

/-- Reading a file's content, if the file exists. -/
def fsGet (fs : Fs) (p : List Char) : Option (List Nat) :=
  (fs.find? (fun e => e.1 == p)).map (fun e => e.2)

/-- The parts of an HTTP response `download_cab` inspects: the status code,
the parsed `content-length` header (`none` when absent or unparseable), and
the body chunks of the byte stream. -/
structure HttpResp where
  status : Nat
  content_length : Option Nat
  body : List (List Nat)
deriving DecidableEq, Repr

/-- `reqwest::StatusCode::is_success`: status in `200..=299`. -/
def isSuccessStatus (n : Nat) : Bool := 200 ≤ n && n ≤ 299

/-- The error values `download_cab` can return (the `IOError`s built at
src/main.rs lines 80 and 93). -/
inductive DlErr where
  | cabRequestFailed
  | cabSizeWrong
deriving DecidableEq, Repr

/-- `download_cab` (src/main.rs lines 66-121) over a given response and
filesystem: fail before touching the filesystem when the status is not a
success or the reported content length is missing, unparseable or zero
(`unwrap_or(0)` then a zero check); otherwise create the archive file and
stream every body chunk into it. -/
def download_cab (info : DllInfo) (resp : HttpResp) (fs : Fs) :
    Except DlErr Unit × Fs :=
  if !(isSuccessStatus resp.status) then (.error .cabRequestFailed, fs)
  else
    let total_size := resp.content_length.getD 0
    if total_size = 0 then (.error .cabSizeWrong, fs)
    else (.ok (), fsSet fs info.cab_path resp.body.flatten)

/-! ### The extraction step (src/main.rs lines 123-150) -/

/-- One file entry inside a cabinet folder. -/
structure CabFile where
  name : List Char
  data : List Nat
deriving DecidableEq, Repr

/-- One cabinet folder: a list of file entries. -/
structure CabFolder where
  files : List CabFile
deriving DecidableEq, Repr

/-- A parsed cabinet container: a list of folders. -/
structure Cabinet where
  folders : List CabFolder
deriving DecidableEq, Repr

/-- The file names collected by the two nested enumeration loops
(src/main.rs lines 133-138). -/
def cabFileNames (c : Cabinet) : List (List Char) :=
  c.folders.flatMap (fun fo => fo.files.map (fun f => f.name))

/-- `Cabinet::read_file`: the data of the first entry with the given name. -/
def findFile (c : Cabinet) (n : List Char) : Option (List Nat) :=
  ((c.folders.flatMap (fun fo => fo.files)).find? (fun f => f.name == n)).map
    (fun f => f.data)

/-- The error values of the extraction step's fallible operations. -/
inductive ExErr where
  | readFailed
deriving DecidableEq, Repr

/-- The extraction loop (src/main.rs lines 140-144): for each collected
name, read that entry and create/overwrite the destination symbol file with
its decompressed bytes (last entry written wins). -/
def extractLoop (c : Cabinet) (info : DllInfo) :
    List (List Char) → Fs → Except ExErr Unit × Fs
  | [], fs => (.ok (), fs)
  | n :: rest, fs =>
    match findFile c n with
    | none => (.error .readFailed, fs)
    | some d => extractLoop c info rest (fsSet fs info.pdb_path d)

/-- `extract_cab` (src/main.rs lines 123-150) over an already-opened
cabinet: enumerate all entries across all folders, then copy each to the
destination symbol-file path. -/
def extract_cab (info : DllInfo) (c : Cabinet) (fs : Fs) :
    Except ExErr Unit × Fs :=
  extractLoop c info (cabFileNames c) fs

/-! ### Concrete example inputs (the end-to-end example of spec §8) -/

/-- The example signature bytes `DE AD BE EF 01 .. 0C` of spec §8. -/
def exSigBytes : List Nat :=
  [222, 173, 190, 239, 1, 2, 3, 4, 5, 6, 7, 8, 9, 10, 11, 12]

/-- The bytes of the file name `example.pdb`. -/
def exNameBytes : List Nat := [101, 120, 97, 109, 112, 108, 101, 46, 112, 100, 98]

/-- The example debug record: signature bytes and file name `example.pdb`. -/
def exDebugInfo : CodeviewPDB70 :=
  { signature := exSigBytes, age := 1, filename := exNameBytes }

/-- A parsed module carrying the example debug record. -/
def exPE : PE :=
  { debug_data := some { codeview_pdb70_debug_info := some exDebugInfo } }

/-- A concrete module path. -/
def exDllPath : List Char := ("unity/UnityPlayer.dll").toList

/-- The identity `parse_dll` derives from the example module. -/
def exDllInfo : DllInfo :=
  { dll_path := exDllPath,
    dll_guid := ("EFBEADDE0201040305060708090A0B0C").toList,
    pdb_name := ("example").toList,
    pdb_path := ("unity/example.pdb").toList,
    cab_path := ("unity/example.cab").toList }

/-- A parsed module whose debug directory carries the given CodeView
record. -/
def mkCodeviewPE (sig : List Nat) (age : Nat) (bytes : List Nat) : PE :=
  { debug_data := some
      { codeview_pdb70_debug_info :=
          some { signature := sig, age := age, filename := bytes } } }

/-- A parsed module whose debug record's file-name bytes are invalid UTF-8
(`0xFF` is never valid). -/
def exBadUtf8PE : PE := mkCodeviewPE exSigBytes 1 [255]

/-- A parsed module with no debug directory at all. -/
def exNoDebugPE : PE := { debug_data := none }

/-- The bytes of the file name `example.dll` (an embedded name whose
extension is not `.pdb`). -/
def exDllExtBytes : List Nat :=
  [101, 120, 97, 109, 112, 108, 101, 46, 100, 108, 108]

/-- The example debug record carrying file name `example.dll`. -/
def exDebugInfoDll : CodeviewPDB70 :=
  { signature := exSigBytes, age := 1, filename := exDllExtBytes }

/-- A parsed module whose debug record's file name is `example.dll`. -/
def exPEDllExt : PE := mkCodeviewPE exSigBytes 1 exDllExtBytes

/-- The identity `parse_dll` derives from the `example.dll` record: the
destination path keeps the full embedded name `example.dll`. -/
def exDllInfoDllExt : DllInfo :=
  { dll_path := exDllPath,
    dll_guid := ("EFBEADDE0201040305060708090A0B0C").toList,
    pdb_name := ("example").toList,
    pdb_path := ("unity/example.dll").toList,
    cab_path := ("unity/example.cab").toList }

/-- A concrete HTTP response with a non-success status. -/
def exResp404 : HttpResp :=
  { status := 404, content_length := some 100, body := [[1, 2, 3]] }

/-- A concrete cabinet with no folders, hence zero file entries. -/
def exEmptyCab : Cabinet := { folders := [] }

/-! ### Basic lemmas about the hex machinery -/

theorem hexDigitsLE_length (w n : Nat) : (hexDigitsLE w n).length = w := by
  induction w generalizing n with
  | zero => rfl
  | succ w ih => simp [hexDigitsLE, ih]

theorem hexPad_length (w n : Nat) : (hexPad w n).length = w := by
  simp [hexPad, hexDigitsLE_length]

theorem hexDigitsLE_lt (w n : Nat) : ∀ d ∈ hexDigitsLE w n, d < 16 := by
  induction w generalizing n with
  | zero => simp [hexDigitsLE]
  | succ w ih =>
    intro d hd
    simp only [hexDigitsLE, List.mem_cons] at hd
    rcases hd with h | h
    · omega
    · exact ih (n / 16) d h

theorem hexVal_hexDigitChar {d : Nat} (h : d < 16) :
    hexVal (hexDigitChar d) = d := by
  interval_cases d <;> decide

theorem isUpperHex_hexDigitChar {d : Nat} (h : d < 16) :
    isUpperHex (hexDigitChar d) = true := by
  interval_cases d <;> decide

theorem mem_hexPad_isUpperHex (w n : Nat) :
    ∀ c ∈ hexPad w n, isUpperHex c = true := by
  intro c hc
  simp only [hexPad, List.mem_map, List.mem_reverse] at hc
  obtain ⟨d, hd, rfl⟩ := hc
  exact isUpperHex_hexDigitChar (hexDigitsLE_lt w n d hd)

theorem fromHexBE_append (s t : List Char) :
    fromHexBE (s ++ t) = t.foldl (fun a c => 16 * a + hexVal c) (fromHexBE s) := by
  simp [fromHexBE, List.foldl_append]

theorem fromHexBE_hexPad {w n : Nat} (h : n < 16 ^ w) :
    fromHexBE (hexPad w n) = n := by
  induction w generalizing n with
  | zero =>
    interval_cases n
    rfl
  | succ w ih =>
    have hq : n / 16 < 16 ^ w := by
      have : n < 16 ^ w * 16 := by
        calc n < 16 ^ (w + 1) := h
        _ = 16 ^ w * 16 := by ring
      omega
    have : hexPad (w + 1) n = hexPad w (n / 16) ++ [hexDigitChar (n % 16)] := by
      simp [hexPad, hexDigitsLE]
    rw [this, fromHexBE_append]
    simp only [List.foldl_cons, List.foldl_nil]
    rw [ih hq, hexVal_hexDigitChar (Nat.mod_lt n (by norm_num))]
    omega

theorem dllGuid_length (g : List Nat) : (dllGuid g).length = 32 := by
  simp [dllGuid, hexPad_length]

theorem dllGuid_upperHex (g : List Nat) :
    ∀ c ∈ dllGuid g, isUpperHex c = true := by
  intro c hc
  simp only [dllGuid, List.mem_append] at hc
  rcases hc with ((((((((((h | h) | h) | h) | h) | h) | h) | h) | h) | h) | h) <;>
    exact mem_hexPad_isUpperHex _ _ _ h

theorem hexPad_two (b : Nat) :
    hexPad 2 b = [hexDigitChar (b / 16 % 16), hexDigitChar (b % 16)] := rfl

theorem pairsToBytes_hexPad_two {b : Nat} (hb : b < 256) (rest : List Char) :
    pairsToBytes (hexPad 2 b ++ rest) = b :: pairsToBytes rest := by
  rw [hexPad_two]
  simp only [List.cons_append, List.nil_append, pairsToBytes]
  rw [hexVal_hexDigitChar (show b / 16 % 16 < 16 by omega),
      hexVal_hexDigitChar (show b % 16 < 16 by omega)]
  simp only [List.cons.injEq, and_true]
  constructor
  · omega
  · rfl

theorem leBytes4_u32le {b0 b1 b2 b3 : Nat} (h0 : b0 < 256) (h1 : b1 < 256)
    (h2 : b2 < 256) (h3 : b3 < 256) :
    leBytes4 (u32le b0 b1 b2 b3) = [b0, b1, b2, b3] := by
  simp only [leBytes4, u32le, List.cons.injEq, and_true]
  omega

theorem leBytes2_u16le {b0 b1 : Nat} (h0 : b0 < 256) (h1 : b1 < 256) :
    leBytes2 (u16le b0 b1) = [b0, b1] := by
  simp only [leBytes2, u16le, List.cons.injEq, and_true]
  omega

theorem u32le_lt {b0 b1 b2 b3 : Nat} (h0 : b0 < 256) (h1 : b1 < 256)
    (h2 : b2 < 256) (h3 : b3 < 256) : u32le b0 b1 b2 b3 < 16 ^ 8 := by
  have : (16 : Nat) ^ 8 = 4294967296 := by norm_num
  simp only [u32le]
  omega

theorem u16le_lt {b0 b1 : Nat} (h0 : b0 < 256) (h1 : b1 < 256) :
    u16le b0 b1 < 16 ^ 4 := by
  have : (16 : Nat) ^ 4 = 65536 := by norm_num
  simp only [u16le]
  omega

/-- C1: for every 16-byte signature, the formatted `record_signature` is
exactly 32 uppercase hexadecimal characters, built as the 4-byte
little-endian group, the two 2-byte little-endian groups, then the
remaining 8 bytes in original order, and decoding that string back into the
three grouped fields reproduces the original 16 bytes byte for byte. -/
theorem C1_signature_roundtrip (g : List Nat) (hlen : g.length = 16)
    (hbytes : ∀ b ∈ g, b < 256) :
    (dllGuid g).length = 32 ∧ (∀ c ∈ dllGuid g, isUpperHex c = true) ∧
    decodeSignature (dllGuid g) = some g := by
  refine ⟨dllGuid_length g, dllGuid_upperHex g, ?_⟩
  rcases g with _ | ⟨b0, g⟩; · simp at hlen
  rcases g with _ | ⟨b1, g⟩; · simp at hlen
  rcases g with _ | ⟨b2, g⟩; · simp at hlen
  rcases g with _ | ⟨b3, g⟩; · simp at hlen
  rcases g with _ | ⟨b4, g⟩; · simp at hlen
  rcases g with _ | ⟨b5, g⟩; · simp at hlen
  rcases g with _ | ⟨b6, g⟩; · simp at hlen
  rcases g with _ | ⟨b7, g⟩; · simp at hlen
  rcases g with _ | ⟨b8, g⟩; · simp at hlen
  rcases g with _ | ⟨b9, g⟩; · simp at hlen
  rcases g with _ | ⟨b10, g⟩; · simp at hlen
  rcases g with _ | ⟨b11, g⟩; · simp at hlen
  rcases g with _ | ⟨b12, g⟩; · simp at hlen
  rcases g with _ | ⟨b13, g⟩; · simp at hlen
  rcases g with _ | ⟨b14, g⟩; · simp at hlen
  rcases g with _ | ⟨b15, g⟩; · simp at hlen
  rcases g with _ | ⟨b16, g⟩
  case cons.cons => simp at hlen
  simp only [List.forall_mem_cons, List.not_mem_nil, false_implies, and_true,
    forall_const] at hbytes
  obtain ⟨h0, h1, h2, h3, h4, h5, h6, h7, h8, h9, h10, h11, h12, h13, h14,
    h15⟩ := hbytes
  have e : dllGuid [b0, b1, b2, b3, b4, b5, b6, b7, b8, b9, b10, b11, b12,
      b13, b14, b15] =
      hexPad 8 (u32le b0 b1 b2 b3) ++
      (hexPad 4 (u16le b4 b5) ++
      (hexPad 4 (u16le b6 b7) ++
      (hexPad 2 b8 ++ hexPad 2 b9 ++ hexPad 2 b10 ++ hexPad 2 b11 ++
       hexPad 2 b12 ++ hexPad 2 b13 ++ hexPad 2 b14 ++ hexPad 2 b15))) := by
    simp [dllGuid, byteAt, List.append_assoc]
  rw [e]
  have hguard : (hexPad 8 (u32le b0 b1 b2 b3) ++
      (hexPad 4 (u16le b4 b5) ++
      (hexPad 4 (u16le b6 b7) ++
      (hexPad 2 b8 ++ hexPad 2 b9 ++ hexPad 2 b10 ++ hexPad 2 b11 ++
       hexPad 2 b12 ++ hexPad 2 b13 ++ hexPad 2 b14 ++
       hexPad 2 b15)))).length = 32 ∧
      ∀ c ∈ hexPad 8 (u32le b0 b1 b2 b3) ++
      (hexPad 4 (u16le b4 b5) ++
      (hexPad 4 (u16le b6 b7) ++
      (hexPad 2 b8 ++ hexPad 2 b9 ++ hexPad 2 b10 ++ hexPad 2 b11 ++
       hexPad 2 b12 ++ hexPad 2 b13 ++ hexPad 2 b14 ++
       hexPad 2 b15))), isUpperHex c = true := by
    constructor
    · simp [hexPad_length]
    · intro c hc
      apply dllGuid_upperHex [b0, b1, b2, b3, b4, b5, b6, b7, b8, b9, b10,
        b11, b12, b13, b14, b15]
      rw [e]
      exact hc
  rw [decodeSignature, if_pos hguard]
  rw [List.take_left' (hexPad_length 8 _), List.drop_left' (hexPad_length 8 _)]
  rw [List.take_left' (hexPad_length 4 _)]
  have hd12 : (12 : Nat) = 8 + 4 := by norm_num
  rw [hd12, ← List.drop_drop, List.drop_left' (hexPad_length 8 _),
    List.drop_left' (hexPad_length 4 _)]
  rw [List.take_left' (hexPad_length 4 _)]
  have hd16 : (16 : Nat) = 8 + (4 + 4) := by norm_num
  rw [hd16, ← List.drop_drop, ← List.drop_drop,
    List.drop_left' (hexPad_length 8 _), List.drop_left' (hexPad_length 4 _),
    List.drop_left' (hexPad_length 4 _)]
  rw [fromHexBE_hexPad (u32le_lt h0 h1 h2 h3),
    fromHexBE_hexPad (u16le_lt h4 h5), fromHexBE_hexPad (u16le_lt h6 h7)]
  rw [leBytes4_u32le h0 h1 h2 h3, leBytes2_u16le h4 h5, leBytes2_u16le h6 h7]
  simp only [List.append_assoc]
  rw [pairsToBytes_hexPad_two h8, pairsToBytes_hexPad_two h9,
    pairsToBytes_hexPad_two h10, pairsToBytes_hexPad_two h11,
    pairsToBytes_hexPad_two h12, pairsToBytes_hexPad_two h13,
    pairsToBytes_hexPad_two h14]
  have hlast : pairsToBytes (hexPad 2 b15) = [b15] := by
    have := pairsToBytes_hexPad_two h15 []
    simpa using this
  rw [hlast]
  simp

/-- Witness for C1 at a concrete 16-byte input. -/
theorem C1_signature_roundtrip_witness :
    ([222, 173, 190, 239, 1, 2, 3, 4, 5, 6, 7, 8, 9, 10, 11, 12] :
      List Nat).length = 16 ∧
    (∀ b ∈ ([222, 173, 190, 239, 1, 2, 3, 4, 5, 6, 7, 8, 9, 10, 11, 12] :
      List Nat), b < 256) ∧
    decodeSignature
      (dllGuid [222, 173, 190, 239, 1, 2, 3, 4, 5, 6, 7, 8, 9, 10, 11, 12]) =
      some [222, 173, 190, 239, 1, 2, 3, 4, 5, 6, 7, 8, 9, 10, 11, 12] :=
  ⟨by decide, by decide,
    (C1_signature_roundtrip
      [222, 173, 190, 239, 1, 2, 3, 4, 5, 6, 7, 8, 9, 10, 11, 12]
      (by decide) (by decide)).2.2⟩

/-! ### Inversion of a successful `parse_dll` run -/

theorem parse_dll_ok_inv {dp : List Char} {pr : Except (List Char) PE}
    {info : DllInfo} (h : parse_dll dp pr = .ok info) :
    ∃ pe dd di n parent,
      pr = .ok pe ∧ pe.debug_data = some dd ∧
      dd.codeview_pdb70_debug_info = some di ∧
      fileName (pdbPathRaw di.filename) = some n ∧
      rustParent dp = some parent ∧
      info = { dll_path := dp, dll_guid := dllGuid di.signature,
               pdb_name := stemOfName n,
               pdb_path := rustJoin parent n,
               cab_path := rustJoin parent (stemOfName n ++ (".cab").toList) } := by
  cases pr with
  | error e => simp only [parse_dll] at h; exact Outcome.noConfusion h
  | ok pe =>
    cases hdd : pe.debug_data with
    | none => simp only [parse_dll, hdd] at h; exact Outcome.noConfusion h
    | some dd =>
      cases hdi : dd.codeview_pdb70_debug_info with
      | none =>
        simp only [parse_dll, hdd, hdi] at h
        exact Outcome.noConfusion h
      | some di =>
        have h' : parseFromInfo dp di = .ok info := by
          simp only [parse_dll, hdd, hdi] at h; exact h
        cases hfn : fileName (pdbPathRaw di.filename) with
        | none =>
          simp only [parseFromInfo, hfn] at h'
          exact Outcome.noConfusion h'
        | some n =>
          cases hpar : rustParent dp with
          | none =>
            simp only [parseFromInfo, hfn, fileStem, Option.map_some',
              hpar] at h'
            exact Outcome.noConfusion h'
          | some parent =>
            simp only [parseFromInfo, hfn, fileStem, Option.map_some',
              hpar] at h'
            refine ⟨pe, dd, di, n, parent, rfl, hdd, hdi, hfn, rfl, ?_⟩
            injection h' with h'
            exact h'.symm

/-- C2, counterexample: on the example signature bytes
`DE AD BE EF 01 02 03 04 05 06 07 08 09 0A 0B 0C` the formatted
`record_signature` is not the 34-character string
`EFBEADDE02010403050607080910111213` the claim states (that string renders
the bytes `09 0A 0B 0C` in decimal); the code produces
`EFBEADDE0201040305060708090A0B0C`. -/
theorem C2_example_counterexample :
    dllGuid exSigBytes ≠ ("EFBEADDE02010403050607080910111213").toList ∧
    dllGuid exSigBytes = ("EFBEADDE0201040305060708090A0B0C").toList := by
  decide

/-- C2 as amended: on the module whose debug record carries signature bytes
`DE AD BE EF 01 02 03 04 05 06 07 08 09 0A 0B 0C` and file name
`example.pdb`, the extractor yields
`record_signature = EFBEADDE0201040305060708090A0B0C` (bytes 0-3
little-endian as `u32` in hex, bytes 4-5 and 6-7 little-endian as `u16` in
hex, bytes 8-15 verbatim in hex) and the lookup key
`example.pdb/` then that 32-character string then `1/example.pd_`. -/
theorem C2_example_amended :
    parse_dll exDllPath (.ok exPE) = .ok exDllInfo ∧
    exDllInfo.dll_guid = ("EFBEADDE0201040305060708090A0B0C").toList ∧
    (exDllInfo.dll_guid).length = 32 ∧
    cabUrl exDllInfo = serverRoot ++
      ("example.pdb/EFBEADDE0201040305060708090A0B0C1/example.pd_").toList := by
  refine ⟨by decide, by decide, by decide, by decide⟩

/-- C3: for every identity `parse_dll` produces, the URL built by
`download_cab` is the fixed server root followed by exactly the lookup key
`<module_base_name>.pdb/<record_signature>1/<module_base_name>.pd_`, where
the `record_signature` is 32 characters long, so the literal `1` follows the
32-character signature. -/
theorem C3_lookup_key_grammar (dp : List Char) (pr : Except (List Char) PE)
    (info : DllInfo) (h : parse_dll dp pr = .ok info) :
    cabUrl info = serverRoot ++ specLookupKey info.pdb_name info.dll_guid ∧
    specLookupKey info.pdb_name info.dll_guid =
      info.pdb_name ++ (".pdb/").toList ++ info.dll_guid ++ ['1'] ++
      ['/'] ++ info.pdb_name ++ (".pd_").toList ∧
    info.dll_guid.length = 32 := by
  obtain ⟨pe, dd, di, n, parent, hpr, hdd, hdi, hfn, hpar, hinfo⟩ :=
    parse_dll_ok_inv h
  refine ⟨?_, ?_, ?_⟩
  · simp [cabUrl, specLookupKey, List.append_assoc]
  · simp [specLookupKey, List.append_assoc]
  · rw [hinfo]
    exact dllGuid_length di.signature

/-- Witness for C3 at the concrete example module. -/
theorem C3_lookup_key_grammar_witness :
    parse_dll exDllPath (.ok exPE) = .ok exDllInfo ∧
    cabUrl exDllInfo =
      serverRoot ++ specLookupKey exDllInfo.pdb_name exDllInfo.dll_guid ∧
    exDllInfo.dll_guid.length = 32 :=
  ⟨by decide,
   (C3_lookup_key_grammar exDllPath (.ok exPE) exDllInfo (by decide)).1,
   (C3_lookup_key_grammar exDllPath (.ok exPE) exDllInfo (by decide)).2.2⟩

/-- C4, counterexample: on a module that parses as a PE but has no debug
directory, `parse_dll` does not return a `MissingDebugDirectory` error
value: it panics (aborts) with the `expect` message `dll no debug data`
(src/main.rs line 28), refuting "it never panics/aborts". -/
theorem C4_no_debug_counterexample :
    parse_dll exDllPath (.ok exNoDebugPE) =
      .panicked ("dll no debug data").toList := by
  decide

/-- C4 as amended: for every input that parses as a module container but
lacks a debug directory, `parse_dll` aborts with the panic message
`dll no debug data` (so in particular it never returns a success value with
an empty identity), rather than returning a `MissingDebugDirectory` error
value. -/
theorem C4_no_debug_panics (dp : List Char) (pe : PE)
    (h : pe.debug_data = none) :
    parse_dll dp (.ok pe) = .panicked ("dll no debug data").toList := by
  simp [parse_dll, h]

/-- Witness for C4 at a concrete module. -/
theorem C4_no_debug_panics_witness :
    exNoDebugPE.debug_data = none ∧
    parse_dll exDllPath (.ok exNoDebugPE) =
      .panicked ("dll no debug data").toList :=
  ⟨rfl, C4_no_debug_panics exDllPath exNoDebugPE rfl⟩

/-- C5, counterexample: on a debug record whose file-name byte string is
invalid UTF-8 (the single byte `0xFF`), the parse does abort: `from_utf8`
fails, `unwrap_or` substitutes the empty string (not a lossy decoding), and
the subsequent `file_name().expect(..)` panics with
`parse pdb name failed` instead of proceeding. -/
theorem C5_invalid_utf8_counterexample :
    utf8Decode [255] = none ∧
    parse_dll exDllPath (.ok exBadUtf8PE) =
      .panicked ("parse pdb name failed").toList := by
  refine ⟨by decide, by decide⟩

/-- C5 as amended: for every debug record whose trailing file-name byte
string is invalid UTF-8, the decoded name is replaced by the empty string
(`unwrap_or("")`), no file-name component can be extracted from it, and
`parse_dll` aborts with the panic message `parse pdb name failed`. -/
theorem C5_invalid_utf8_panics (dp : List Char) (sig : List Nat) (age : Nat)
    (bytes : List Nat) (h : utf8Decode bytes = none) :
    parse_dll dp (.ok (mkCodeviewPE sig age bytes)) =
      .panicked ("parse pdb name failed").toList := by
  have hraw : pdbPathRaw bytes = [] := by
    simp [pdbPathRaw, h, rustTrimEnd, trimEndNul]
  have hfn : fileName ([] : List Char) = none := by decide
  simp [parse_dll, parseFromInfo, mkCodeviewPE, hraw, hfn]

/-- Witness for C5 at the concrete invalid byte `0xFF`. -/
theorem C5_invalid_utf8_panics_witness :
    utf8Decode [255] = none ∧
    parse_dll exDllPath (.ok (mkCodeviewPE exSigBytes 1 [255])) =
      .panicked ("parse pdb name failed").toList :=
  ⟨by decide, C5_invalid_utf8_panics exDllPath exSigBytes 1 [255] (by decide)⟩

/-- C6, counterexample: the decoded name `a` followed by two NUL
terminators.  The code's `trim_end_matches('\0')` removes both NULs (and
`trim_end` then has nothing to do), so the processed string is `a`, not the
`a` plus one retained NUL the claim predicts. -/
theorem C6_double_nul_counterexample :
    rustTrimEnd (trimEndNul ['a', '\x00', '\x00']) = ['a'] ∧
    rustTrimEnd (trimEndNul ['a', '\x00', '\x00']) ≠ ['a', '\x00'] := by
  refine ⟨by decide, by decide⟩

/-- C6 as amended: the extractor strips all trailing NUL terminators (a
string ending in two NULs retains none of them) and then trims trailing
whitespace: appending a NUL to any decoded name never changes the processed
result. -/
theorem C6_strips_all_trailing_nuls (s : List Char) :
    rustTrimEnd (trimEndNul (s ++ ['\x00'])) = rustTrimEnd (trimEndNul s) := by
  have h : trimEndNul (s ++ ['\x00']) = trimEndNul s := by
    simp [trimEndNul, List.reverse_append]
  rw [h]

/-! ### Lemmas about the path model -/

theorem splitSl_ne_nil (s : List Char) : splitSl s ≠ [] := by
  cases s with
  | nil => simp [splitSl]
  | cons c t =>
    simp only [splitSl]
    split
    · simp
    · split <;> simp

theorem mem_splitSl_no_slash (s : List Char) :
    ∀ p ∈ splitSl s, '/' ∉ p := by
  induction s with
  | nil => intro p hp; simp [splitSl] at hp; simp [hp]
  | cons c t ih =>
    intro p hp
    cases hsp : splitSl t with
    | nil => exact absurd hsp (splitSl_ne_nil t)
    | cons hd r =>
      simp only [splitSl, hsp] at hp
      by_cases hc : c = '/'
      · simp only [hc, if_pos rfl] at hp
        rcases List.mem_cons.mp hp with rfl | hp
        · simp
        · exact ih p (hsp ▸ hp)
      · rw [if_neg hc] at hp
        rcases List.mem_cons.mp hp with rfl | hp
        · intro hmem
          rcases List.mem_cons.mp hmem with h | h
          · exact hc h.symm
          · exact ih hd (hsp ▸ List.mem_cons_self hd r) h
        · exact ih p (hsp ▸ List.mem_cons.mpr (Or.inr hp))

theorem splitSl_append (xs ys : List Char) :
    splitSl (xs ++ '/' :: ys) = splitSl xs ++ splitSl ys := by
  induction xs with
  | nil =>
    cases hsp : splitSl ys with
    | nil => exact absurd hsp (splitSl_ne_nil ys)
    | cons hd r => simp [splitSl, hsp]
  | cons c xs ih =>
    cases hsp : splitSl xs with
    | nil => exact absurd hsp (splitSl_ne_nil xs)
    | cons hd r =>
      have lhs : splitSl ((c :: xs) ++ '/' :: ys) =
          (match splitSl (xs ++ '/' :: ys) with
           | [] => [[c]]
           | h :: r => if c = '/' then [] :: h :: r else (c :: h) :: r) := rfl
      have rhs : splitSl (c :: xs) =
          (match splitSl xs with
           | [] => [[c]]
           | h :: r => if c = '/' then [] :: h :: r else (c :: h) :: r) := rfl
      rw [lhs, ih, hsp, rhs, hsp]
      by_cases hc : c = '/'
      · simp [hc]
      · simp [hc]

theorem splitSl_no_slash {s : List Char} (h : '/' ∉ s) : splitSl s = [s] := by
  induction s with
  | nil => rfl
  | cons c t ih =>
    have hc : c ≠ '/' := fun hh => h (hh ▸ List.mem_cons_self c t)
    have ht : '/' ∉ t := fun hh => h (List.mem_cons.mpr (Or.inr hh))
    simp [splitSl, ih ht, hc]

theorem pathPieces_append (xs ys : List Char) :
    pathPieces (xs ++ '/' :: ys) = pathPieces xs ++ pathPieces ys := by
  simp [pathPieces, splitSl_append, List.filter_append]

theorem pathPieces_single {n : List Char} (hne : n ≠ []) (hs : '/' ∉ n)
    (hdot : n ≠ ['.']) : pathPieces n = [n] := by
  simp [pathPieces, splitSl_no_slash hs, List.filter, hne, hdot]

theorem fileName_single {n : List Char} (hne : n ≠ []) (hs : '/' ∉ n)
    (hdot : n ≠ ['.']) (hdd : n ≠ ['.', '.']) : fileName n = some n := by
  simp [fileName, pathPieces_single hne hs hdot, hdd]

theorem fileName_spec {s n : List Char} (h : fileName s = some n) :
    n ≠ [] ∧ '/' ∉ n ∧ n ≠ ['.'] ∧ n ≠ ['.', '.'] := by
  cases hlast : (pathPieces s).getLast? with
  | none => simp [fileName, hlast] at h
  | some p =>
    simp only [fileName, hlast] at h
    by_cases hp : p = ['.', '.']
    · rw [if_pos hp] at h; exact Option.noConfusion h
    · rw [if_neg hp] at h
      injection h with h
      subst h
      have hmem : p ∈ pathPieces s := List.mem_of_mem_getLast? hlast
      have hfil := List.of_mem_filter hmem
      have hmem' : p ∈ splitSl s := List.mem_of_mem_filter hmem
      simp only [Bool.and_eq_true, Bool.not_eq_true', List.isEmpty_eq_false,
        decide_eq_true_eq] at hfil
      exact ⟨hfil.1, mem_splitSl_no_slash s p hmem', hfil.2, hp⟩

theorem dropWhile_head_false (p : Char → Bool) :
    ∀ (l : List Char) c t, l.dropWhile p = c :: t → p c = false := by
  intro l
  induction l with
  | nil => intro c t h; simp [List.dropWhile] at h
  | cons a l ih =>
    intro c t h
    by_cases hpa : p a = true
    · rw [List.dropWhile_cons_of_pos hpa] at h
      exact ih c t h
    · rw [List.dropWhile_cons_of_neg hpa] at h
      injection h with h1 h2
      subst h1
      simp only [Bool.not_eq_true] at hpa
      exact hpa

theorem dropWhile_eq_self_of_all_false {p : Char → Bool} {l : List Char}
    (h : ∀ x ∈ l, p x = false) : l.dropWhile p = l := by
  cases l with
  | nil => rfl
  | cons a t =>
    have ha := h a (List.mem_cons_self a t)
    rw [List.dropWhile_cons_of_neg (by simp [ha])]

theorem rustParent_shape {s p : List Char} (h : rustParent s = some p) :
    p = [] ∨ p = ['/'] ∨ (p ≠ [] ∧ p.getLast? ≠ some '/') := by
  simp only [rustParent] at h
  split at h
  · exact Option.noConfusion h
  · split at h
    · split at h
      · injection h with h
        exact Or.inr (Or.inl h.symm)
      · injection h with h
        exact Or.inl h.symm
    · case isFalse h3 =>
      injection h with h
      right; right
      cases hr3 : (((s.reverse.dropWhile (fun c => c = '/')).dropWhile
          (fun c => c ≠ '/')).dropWhile (fun c => c = '/')) with
      | nil => rw [hr3] at h3; simp at h3
      | cons c t =>
        rw [hr3] at h
        have hc : (fun c => decide (c = '/')) c = false :=
          dropWhile_head_false _ _ c t hr3
        simp only [decide_eq_false_iff_not] at hc
        constructor
        · rw [← h]; simp
        · rw [← h, List.getLast?_reverse]
          simp [hc]

theorem dropWhile_stop {p : Char → Bool} {l1 l2 : List Char} (h1 : l1 ≠ [])
    (h : ∀ x ∈ l1, p x = false) : (l1 ++ l2).dropWhile p = l1 ++ l2 := by
  cases l1 with
  | nil => exact absurd rfl h1
  | cons a t =>
    have ha := h a (List.mem_cons_self a t)
    rw [List.cons_append, List.dropWhile_cons_of_neg (by simp [ha])]

theorem rustParent_rustJoin {p n : List Char}
    (hp : p = [] ∨ p = ['/'] ∨ (p ≠ [] ∧ p.getLast? ≠ some '/'))
    (hne : n ≠ []) (hs : '/' ∉ n) :
    rustParent (rustJoin p n) = some p := by
  obtain ⟨c, t, rfl⟩ : ∃ c t, n = c :: t := by
    cases n with
    | nil => exact absurd rfl hne
    | cons c t => exact ⟨c, t, rfl⟩
  have hc : c ≠ '/' := fun hh => hs (hh ▸ List.mem_cons_self c t)
  have hhead : (c :: t).head? ≠ some '/' := by simp [hc]
  have hnf : ∀ x ∈ (c :: t).reverse, (fun c => decide (c = '/')) x = false := by
    intro x hx
    simp only [List.mem_reverse] at hx
    simp only [decide_eq_false_iff_not]
    exact fun hh => hs (hh ▸ hx)
  have hnt : ∀ x ∈ (c :: t).reverse, (fun c => decide ¬(c = '/')) x = true := by
    intro x hx
    simp only [List.mem_reverse] at hx
    simp only [decide_eq_true_eq]
    exact fun hh => hs (hh ▸ hx)
  have hrevne : (c :: t).reverse ≠ [] := by simp
  rcases hp with rfl | rfl | ⟨hpne, hpl⟩
  · -- parent is the empty relative directory: the joined path is the bare name
    have hjoin : rustJoin [] (c :: t) = c :: t := by
      simp [rustJoin, hhead]
    rw [hjoin]
    simp only [rustParent]
    have hall : ¬ ((c :: t).all (fun c => c = '/') = true) := by
      simp only [List.all_eq_true]
      intro hall
      exact hc (by simpa using hall c (List.mem_cons_self c t))
    rw [if_neg hall]
    have h1 : (c :: t).reverse.dropWhile (fun c => c = '/') = (c :: t).reverse :=
      dropWhile_eq_self_of_all_false hnf
    rw [h1]
    have h2 : (c :: t).reverse.dropWhile (fun c => c ≠ '/') = [] :=
      List.dropWhile_eq_nil_iff.mpr (by intro x hx; simpa using hnt x hx)
    rw [h2]
    simp [hc]
  · -- parent is the bare root
    have hjoin : rustJoin ['/'] (c :: t) = '/' :: c :: t := by
      simp [rustJoin, hhead, hc]
    rw [hjoin]
    simp only [rustParent]
    have hall : ¬ (('/' :: c :: t).all (fun c => c = '/') = true) := by
      simp only [List.all_eq_true]
      intro hall
      exact hc (by simpa using hall c (by simp))
    rw [if_neg hall]
    have hrev : ('/' :: c :: t).reverse = (c :: t).reverse ++ ['/'] := by simp
    rw [hrev]
    have h1 : ((c :: t).reverse ++ ['/']).dropWhile (fun c => c = '/') =
        (c :: t).reverse ++ ['/'] := dropWhile_stop hrevne hnf
    rw [h1]
    have h2 : ((c :: t).reverse ++ ['/']).dropWhile (fun c => c ≠ '/') = ['/'] := by
      rw [List.dropWhile_append]
      have hnil : (c :: t).reverse.dropWhile (fun c => c ≠ '/') = [] :=
        List.dropWhile_eq_nil_iff.mpr (by intro x hx; simpa using hnt x hx)
      rw [hnil]
      simp
    rw [h2]
    simp
  · -- parent ends in a non-separator character
    obtain ⟨q, x, rfl⟩ : ∃ q x, p = q ++ [x] := by
      rcases List.eq_nil_or_concat' p with rfl | h
      · exact absurd rfl hpne
      · exact h
    have hx : x ≠ '/' := by
      intro hh
      exact hpl (by rw [List.getLast?_concat, hh])
    have hjoin : rustJoin (q ++ [x]) (c :: t) = (q ++ [x]) ++ '/' :: c :: t := by
      rw [rustJoin]
      rw [if_neg hhead]
      rw [if_neg (by simp)]
      rw [if_neg (by rw [List.getLast?_concat]; simpa using hx)]
    rw [hjoin]
    simp only [rustParent]
    have hall : ¬ ((((q ++ [x]) ++ '/' :: c :: t).all (fun c => c = '/')) = true) := by
      simp only [List.all_eq_true]
      intro hall
      exact hc (by simpa using hall c (by simp))
    rw [if_neg hall]
    have hrev : ((q ++ [x]) ++ '/' :: c :: t).reverse =
        (c :: t).reverse ++ '/' :: x :: q.reverse := by
      simp [List.reverse_append]
    rw [hrev]
    have h1 : ((c :: t).reverse ++ '/' :: x :: q.reverse).dropWhile
        (fun c => c = '/') = (c :: t).reverse ++ '/' :: x :: q.reverse :=
      dropWhile_stop hrevne hnf
    rw [h1]
    have h2 : ((c :: t).reverse ++ '/' :: x :: q.reverse).dropWhile
        (fun c => c ≠ '/') = '/' :: x :: q.reverse := by
      rw [List.dropWhile_append]
      have hnil : (c :: t).reverse.dropWhile (fun c => c ≠ '/') = [] :=
        List.dropWhile_eq_nil_iff.mpr (by intro y hy; simpa using hnt y hy)
      rw [hnil]
      simp
    rw [h2]
    have h3 : ('/' :: x :: q.reverse).dropWhile (fun c => c = '/') =
        x :: q.reverse := by
      rw [List.dropWhile_cons_of_pos (by simp), List.dropWhile_cons_of_neg
        (by simpa using hx)]
    rw [h3]
    simp

theorem fileName_rustJoin {p n : List Char}
    (hp : p = [] ∨ p = ['/'] ∨ (p ≠ [] ∧ p.getLast? ≠ some '/'))
    (hne : n ≠ []) (hs : '/' ∉ n) (hdot : n ≠ ['.']) (hdd : n ≠ ['.', '.']) :
    fileName (rustJoin p n) = some n := by
  obtain ⟨c, t, rfl⟩ : ∃ c t, n = c :: t := by
    cases n with
    | nil => exact absurd rfl hne
    | cons c t => exact ⟨c, t, rfl⟩
  have hc : c ≠ '/' := fun hh => hs (hh ▸ List.mem_cons_self c t)
  have hhead : (c :: t).head? ≠ some '/' := by simp [hc]
  rcases hp with rfl | rfl | ⟨hpne, hpl⟩
  · rw [show rustJoin [] (c :: t) = c :: t from by simp [rustJoin, hhead]]
    exact fileName_single hne hs hdot hdd
  · rw [show rustJoin ['/'] (c :: t) = '/' :: c :: t from by
      simp [rustJoin, hhead, hc]]
    have hlast : (pathPieces ('/' :: c :: t)).getLast? = some (c :: t) := by
      rw [show ('/' :: c :: t) = [] ++ '/' :: (c :: t) from rfl,
        pathPieces_append, pathPieces_single hne hs hdot]
      rfl
    simp [fileName, hlast, hdd]
  · have hjoin : rustJoin p (c :: t) = p ++ '/' :: (c :: t) := by
      rw [rustJoin]
      rw [if_neg hhead]
      rw [if_neg (by simpa using hpne)]
      rw [if_neg hpl]
    rw [hjoin]
    have hlast : (pathPieces (p ++ '/' :: (c :: t))).getLast? =
        some (c :: t) := by
      rw [pathPieces_append, pathPieces_single hne hs hdot,
        List.getLast?_append_of_ne_nil _ (by simp)]
      rfl
    simp [fileName, hlast, hdd]

theorem mem_stemOfName {n : List Char} : ∀ c ∈ stemOfName n, c ∈ n := by
  intro c hc
  cases n with
  | nil => simp [stemOfName] at hc
  | cons a t =>
    simp only [stemOfName] at hc
    by_cases hdot : t.contains '.'
    · rw [if_pos hdot] at hc
      unfold dropAfterLastDot at hc
      rw [List.mem_reverse] at hc
      have h1 := List.tail_sublist
        ((a :: t).reverse.dropWhile (fun c => c ≠ '.'))
      have h2 : List.Sublist ((a :: t).reverse.dropWhile (fun c => c ≠ '.'))
          ((a :: t).reverse) := List.dropWhile_sublist _
      have hm : c ∈ (a :: t).reverse := (h1.trans h2).subset hc
      rwa [List.mem_reverse] at hm
    · rw [if_neg hdot] at hc
      exact hc

/-- C7: for every module on which the extractor succeeds, the derived
`pdb_path` and `cab_path` both have the same parent directory as the module
path; they differ from it only in their final file-name component (the
record's file name for `pdb_path`, the stem plus `.cab` for `cab_path`). -/
theorem C7_paths_share_parent (dp : List Char) (pr : Except (List Char) PE)
    (info : DllInfo) (h : parse_dll dp pr = .ok info) :
    rustParent info.pdb_path = rustParent info.dll_path ∧
    rustParent info.cab_path = rustParent info.dll_path ∧
    fileName info.cab_path = some (info.pdb_name ++ (".cab").toList) ∧
    ∃ n, fileName info.pdb_path = some n ∧ info.pdb_name = stemOfName n := by
  obtain ⟨pe, dd, di, n, parent, hpr, hdd, hdi, hfn, hpar, hinfo⟩ :=
    parse_dll_ok_inv h
  obtain ⟨hn_ne, hn_ns, hn_dot, hn_dd⟩ := fileName_spec hfn
  have hshape := rustParent_shape hpar
  have hlen4 : ((".cab").toList).length = 4 := rfl
  have hcn_ne : stemOfName n ++ (".cab").toList ≠ [] := by
    intro hh
    have := congrArg List.length hh
    simp only [List.length_append, hlen4, List.length_nil] at this
    omega
  have hcn_ns : '/' ∉ stemOfName n ++ (".cab").toList := by
    intro hh
    rcases List.mem_append.mp hh with hh | hh
    · exact hn_ns (mem_stemOfName '/' hh)
    · exact absurd hh (by decide)
  have hcn_dot : stemOfName n ++ (".cab").toList ≠ ['.'] := by
    intro hh
    have := congrArg List.length hh
    simp only [List.length_append, hlen4, List.length_cons,
      List.length_nil] at this
    omega
  have hcn_dd : stemOfName n ++ (".cab").toList ≠ ['.', '.'] := by
    intro hh
    have := congrArg List.length hh
    simp only [List.length_append, hlen4, List.length_cons,
      List.length_nil] at this
    omega
  subst hinfo
  refine ⟨?_, ?_, ?_, ?_⟩
  · show rustParent (rustJoin parent n) = rustParent dp
    rw [rustParent_rustJoin hshape hn_ne hn_ns, hpar]
  · show rustParent (rustJoin parent (stemOfName n ++ (".cab").toList)) =
      rustParent dp
    rw [rustParent_rustJoin hshape hcn_ne hcn_ns, hpar]
  · exact fileName_rustJoin hshape hcn_ne hcn_ns hcn_dot hcn_dd
  · exact ⟨n, fileName_rustJoin hshape hn_ne hn_ns hn_dot hn_dd, rfl⟩

/-- Witness for C7 at the concrete example module. -/
theorem C7_paths_share_parent_witness :
    parse_dll exDllPath (.ok exPE) = .ok exDllInfo ∧
    rustParent exDllInfo.pdb_path = rustParent exDllInfo.dll_path ∧
    rustParent exDllInfo.cab_path = rustParent exDllInfo.dll_path :=
  ⟨by decide,
   (C7_paths_share_parent exDllPath (.ok exPE) exDllInfo (by decide)).1,
   (C7_paths_share_parent exDllPath (.ok exPE) exDllInfo (by decide)).2.1⟩

/-- C8: whenever the HTTP response has a non-success status, `download_cab`
fails with the fetch error (the `Cab request failed` IO error realizing the
spec's `FetchFailed`) before any filesystem operation: the destination
archive file is neither created nor truncated and the filesystem state is
returned unchanged. -/
theorem C8_fetch_failure_leaves_fs (info : DllInfo) (resp : HttpResp)
    (fs : Fs) (h : isSuccessStatus resp.status = false) :
    download_cab info resp fs = (.error DlErr.cabRequestFailed, fs) := by
  simp [download_cab, h]

/-- Witness for C8 at a concrete 404 response. -/
theorem C8_fetch_failure_leaves_fs_witness :
    isSuccessStatus exResp404.status = false ∧
    download_cab exDllInfo exResp404 [] =
      (.error DlErr.cabRequestFailed, ([] : Fs)) :=
  ⟨by decide, C8_fetch_failure_leaves_fs exDllInfo exResp404 [] (by decide)⟩

/-- C9, counterexample: on a valid cabinet containing zero file entries,
`extract_cab` does not fail with `ArchiveCorrupt`: the enumeration loop
collects no names, the copy loop runs zero times, and the function returns
success while the destination symbol file remains absent. -/
theorem C9_empty_archive_counterexample :
    extract_cab exDllInfo exEmptyCab [] = (.ok (), ([] : Fs)) ∧
    fsGet [] exDllInfo.pdb_path = none :=
  ⟨rfl, rfl⟩

/-- C9 as amended: for every archive that opens as a valid cabinet but
contains zero file entries across all folders, `extract_cab` returns
success with the filesystem unchanged — the destination symbol file is
silently left absent, with no `ArchiveCorrupt` error. -/
theorem C9_empty_archive_succeeds (info : DllInfo) (c : Cabinet) (fs : Fs)
    (h : cabFileNames c = []) :
    extract_cab info c fs = (.ok (), fs) := by
  simp [extract_cab, h, extractLoop]

/-- Witness for C9 at the concrete empty cabinet. -/
theorem C9_empty_archive_succeeds_witness :
    cabFileNames exEmptyCab = [] ∧
    extract_cab exDllInfo exEmptyCab [] = (.ok (), ([] : Fs)) :=
  ⟨rfl, C9_empty_archive_succeeds exDllInfo exEmptyCab [] rfl⟩

/-- C10: for every record on which `parse_dll` succeeds, the destination
symbol-file path keeps the record's full embedded file name verbatim as its
final component (whatever its extension), while the download URL always
applies the literal extensions `.pdb` and `.pd_` to the stem — so the
destination file's extension and the extension in the lookup key can
differ. -/
theorem C10_destination_keeps_embedded_name (dp : List Char) (pe : PE)
    (dd : DebugData) (di : CodeviewPDB70) (info : DllInfo)
    (h : parse_dll dp (.ok pe) = .ok info)
    (hdd : pe.debug_data = some dd)
    (hdi : dd.codeview_pdb70_debug_info = some di) :
    ∃ n, fileName (pdbPathRaw di.filename) = some n ∧
      fileName info.pdb_path = some n ∧
      info.pdb_name = stemOfName n ∧
      cabUrl info = serverRoot ++ stemOfName n ++ (".pdb/").toList ++
        info.dll_guid ++ ("1/").toList ++ stemOfName n ++ (".pd_").toList := by
  obtain ⟨pe', dd', di', n, parent, hpr, hdd', hdi', hfn, hpar, hinfo⟩ :=
    parse_dll_ok_inv h
  injection hpr with hpe
  subst hpe
  rw [hdd] at hdd'
  injection hdd' with hdd2
  subst hdd2
  rw [hdi] at hdi'
  injection hdi' with hdi2
  subst hdi2
  obtain ⟨hn_ne, hn_ns, hn_dot, hn_dd⟩ := fileName_spec hfn
  have hshape := rustParent_shape hpar
  subst hinfo
  refine ⟨n, hfn, fileName_rustJoin hshape hn_ne hn_ns hn_dot hn_dd, rfl, ?_⟩
  simp [cabUrl, List.append_assoc]

/-- Witness for C10 at the `example.dll` record: the destination file name
is `example.dll` while the URL uses `example.pdb` and `example.pd_`. -/
theorem C10_destination_keeps_embedded_name_witness :
    parse_dll exDllPath (.ok exPEDllExt) = .ok exDllInfoDllExt ∧
    fileName exDllInfoDllExt.pdb_path = some (("example.dll").toList) ∧
    cabUrl exDllInfoDllExt = ("http://symbolserver.unity3d.com/" ++
      "example.pdb/EFBEADDE0201040305060708090A0B0C1/example.pd_").toList ∧
    (∃ n, fileName (pdbPathRaw exDebugInfoDll.filename) = some n ∧
      fileName exDllInfoDllExt.pdb_path = some n ∧
      exDllInfoDllExt.pdb_name = stemOfName n ∧
      cabUrl exDllInfoDllExt = serverRoot ++ stemOfName n ++
        (".pdb/").toList ++ exDllInfoDllExt.dll_guid ++ ("1/").toList ++
        stemOfName n ++ (".pd_").toList) :=
  ⟨by decide, by decide, by decide,
   C10_destination_keeps_embedded_name exDllPath exPEDllExt
     { codeview_pdb70_debug_info := some exDebugInfoDll } exDebugInfoDll
     exDllInfoDllExt (by decide) rfl rfl⟩
